import Mathlib

/-!
# go-misp: a typed client for the MISP REST API

A shallow embedding of `misp.go`: the tag-expression builder `chain`, the
client constructor `New`, the transport primitives `httpDo` / `httpPost`,
the event search `SearchEvents`, and the decoding of the `Event` entity
model as directed by its `json` struct tags.

Conventions of the embedding.

* Go `string` is `String`; `int`, `int64`, `int8` are `Int`.
* A Go `error` is a value of `Error`; `(T, error)` results are `Except Error T`.
* The slice result of `SearchEvents` is `Option (List _)`, `none` standing
  for `nil`. A slice field that `encoding/json` decodes into is a `Slice`:
  its elements together with what its backing array holds past its length.
* A message body is represented by what the JSON syntax layer makes of its
  bytes: `none` for bytes that are not well-formed JSON text, `some v` for
  the JSON value `v` they spell.
* Library behaviour that the package does not fix (URL validation inside
  `http.NewRequest`, the case folding of object keys inside
  `encoding/json`) is a field of `Std`.
-/

namespace Misp

/-! ## Strings -/

/-- Go `strings.HasPrefix`. -/
def HasPrefix (s pre : String) : Bool := pre.data.isPrefixOf s.data

/-- Go `strings.HasSuffix`. -/
def HasSuffix (s suffix : String) : Bool := suffix.data.isSuffixOf s.data

/-- Go `strings.TrimSuffix`: `s[:len(s)-len(suffix)]` when `s` ends with `suffix`, else `s`. -/
def TrimSuffix (s suffix : String) : String :=
  if HasSuffix s suffix then ⟨s.data.take (s.data.length - suffix.data.length)⟩ else s

/-- The character of a decimal digit `d < 10`. -/
def digitChar (d : Nat) : Char := Char.ofNat (48 + d)

/-- Decimal digits of `u`, most significant first, pushed in front of `acc`
(the digit loop of `strconv.formatBits` in base 10). `fuel` bounds the number of digits. -/
def formatBits : Nat → Nat → List Char → List Char
  | 0, _, acc => acc
  | fuel + 1, u, acc =>
    if u < 10 then digitChar u :: acc
    else formatBits fuel (u / 10) (digitChar (u % 10) :: acc)

/-- Go `strconv.FormatInt(i, 10)`. -/
def FormatInt (i : Int) : String :=
  if i < 0 then ⟨'-' :: formatBits (i.natAbs + 1) i.natAbs []⟩
  else ⟨formatBits (i.natAbs + 1) i.natAbs []⟩

/-- Go `strconv.Itoa`. -/
def Itoa (i : Int) : String := FormatInt i

/-- Value of a decimal digit character. -/
def digitVal (c : Char) : Option Nat :=
  if '0' ≤ c ∧ c ≤ '9' then some (c.toNat - 48) else none

/-- The digit loop of `strconv.ParseUint` in base 10 (without the size cut-off). -/
def parseDigits : Nat → List Char → Option Nat
  | n, [] => some n
  | n, c :: rest =>
    match digitVal c with
    | none => none
    | some d => parseDigits (n * 10 + d) rest

/-- Go `strconv.ParseUint(s, 10, 64)` on the characters of `s`. -/
def ParseUint (s : List Char) : Option Nat :=
  match s with
  | [] => none
  | _ :: _ =>
    match parseDigits 0 s with
    | none => none
    | some n => if n < 2 ^ 64 then some n else none

/-- Go `strconv.ParseInt(s, 10, bitSize)`. -/
def ParseInt (s : String) (bitSize : Nat) : Option Int :=
  match s.data with
  | [] => none
  | c :: rest =>
    let neg := c = '-'
    let digits := if c = '+' ∨ c = '-' then rest else c :: rest
    match ParseUint digits with
    | none => none
    | some un =>
      if neg then (if un ≤ 2 ^ (bitSize - 1) then some (-(un : Int)) else none)
      else (if un < 2 ^ (bitSize - 1) then some (un : Int) else none)

/-! ## Tag-expression builder -/

/-- Body of the first loop of `chain`. -/
def inclStep (chain : String) (i : Nat) (elem : String) : String :=
  if i = 0 then elem else chain ++ ("&&" ++ elem)

/-- Body of the second loop of `chain`. -/
def exclStep (chain : String) (i : Nat) (elem : String) : String :=
  if i = 0 ∧ chain = "" then "!" ++ elem else chain ++ ("&&!" ++ elem)

/-- A `for i, elem := range xs` loop over strings, threading the accumulator. -/
def rangeLoop (body : String → Nat → String → String) : Nat → String → List String → String
  | _, chain, [] => chain
  | i, chain, elem :: rest => rangeLoop body (i + 1) (body chain i elem) rest

/-- Go `chain(incl, excl)`. -/
def chain (incl excl : List String) : String :=
  rangeLoop exclStep 0 (rangeLoop inclStep 0 "" incl) excl

/-- Specification side: the terms joined with a separator. -/
def joinWith (sep : String) : List String → String
  | [] => ""
  | [a] => a
  | a :: b :: rest => a ++ sep ++ joinWith sep (b :: rest)

/-- Concatenation of a list of strings. -/
def appendAll : List String → String
  | [] => ""
  | a :: rest => a ++ appendAll rest

/-- Specification side: each excluded tag prefixed with `!`. -/
def negated (excl : List String) : List String := excl.map (fun e => "!" ++ e)

/-- Specification side: the number of non-overlapping occurrences of `&&`,
scanning from the left (Go `strings.Count(s, "&&")`). -/
def countSep : List Char → Nat
  | [] => 0
  | [_] => 0
  | c :: d :: rest => if c = '&' ∧ d = '&' then countSep rest + 1 else countSep (d :: rest)

/-- A tag that does not contain the character `&`. -/
def ampFree (s : String) : Prop := '&' ∉ s.data

instance (s : String) : Decidable (ampFree s) := by unfold ampFree; infer_instance

/-! ## JSON values, errors, HTTP messages -/

/-- A JSON value. Numbers keep their literal text. -/
inductive JSON where
  | null
  | bool (b : Bool)
  | num (lit : String)
  | str (s : String)
  | arr (items : List JSON)
  | obj (members : List (String × JSON))

/-- The value stored under the first member named `key` of a JSON object. -/
def JSON.get? : JSON → String → Option JSON
  | .obj members, key => members.lookup key
  | _, _ => none

/-- Whether a JSON object has a member named `key`. -/
def JSON.hasKey : JSON → String → Bool
  | .obj members, key => members.any (fun m => m.1 == key)
  | _, _ => false

/-- The failures an operation can return. -/
inductive Error where
  /-- the error of `http.NewRequest`. -/
  | construction (msg : String)
  /-- the error of the injected client's `Do`. -/
  | transport (msg : String)
  /-- the error `fmt.Errorf("http status %d", code)`. -/
  | status (code : Int)
  /-- the error of `io.Copy` from the response body. -/
  | read (msg : String)
  /-- the error of `json.Marshal` or `json.Unmarshal`. -/
  | decode
  deriving DecidableEq

/-- The text of the status error: `fmt.Sprintf("http status %d", code)`. -/
def statusMessage (code : Int) : String := "http status " ++ FormatInt code

/-- Bytes of a message body: `none` when they are not well-formed JSON text. -/
abbrev Bytes := Option JSON

/-- An `http.Request`. -/
structure Request where
  Method : String
  URL : String
  Header : List (String × String)
  Body : Option JSON

/-- `req.Header.Set(key, value)`. -/
def Request.setHeader (req : Request) (key value : String) : Request :=
  { req with Header := (req.Header.filter (fun h => h.1 != key)) ++ [(key, value)] }

/-- An `http.Response`: the status code, and what draining the body gives. -/
structure Response where
  StatusCode : Int
  /-- what `io.Copy` gets out of the body: the text of a read failure, or the bytes. -/
  Body : Except String Bytes

/-- The library behaviour the package relies on without fixing it. -/
structure Std where
  /-- the text of the failure of `http.NewRequest` on a URL it rejects. -/
  urlError : String → Option String
  /-- the case folding `encoding/json` applies to object keys that match no field exactly. -/
  foldName : String → String

/-- Go `http.NewRequest`. -/
def NewRequest (std : Std) (method url : String) (body : Option JSON) : Except Error Request :=
  match std.urlError url with
  | some msg => .error (.construction msg)
  | none => .ok { Method := method, URL := url, Header := [], Body := body }

/-- Go `Client`: `hc` is the `Do` method of the injected `*http.Client`, which
returns a response or the text of a failure. -/
structure Client where
  hc : Request → Except String Response
  auth : String
  baseURL : String

/-- Go `New`. -/
def New (httpClient : Request → Except String Response) (baseURL auth : String) :
    Except Error Client :=
  let baseURL :=
    if !HasPrefix baseURL "http://" && !HasPrefix baseURL "https://" then "https://" ++ baseURL
    else baseURL
  let baseURL := TrimSuffix baseURL "/"
  .ok { hc := httpClient, auth := auth, baseURL := baseURL }

/-! ## Entity model -/

/-- A Go slice as a decoding target: `elems` are its elements, `spare` is what
the backing array holds past the length (positions not listed hold zero
values). The nil slice and the empty slice are both `{ elems := [], spare := [] }`. -/
structure Slice (τ : Type) where
  elems : List τ
  spare : List τ
  deriving DecidableEq

/-- The nil slice. -/
def Slice.nil {τ : Type} : Slice τ := { elems := [], spare := [] }

/-- A slice of the given elements whose backing array holds nothing else. -/
def Slice.of {τ : Type} (elems : List τ) : Slice τ := { elems := elems, spare := [] }

/-- Go `Org`. -/
structure Org where
  Name : String
  deriving DecidableEq

/-- Go `Attribute`. -/
structure Attribute where
  ID : Int
  Type_ : String
  ToIDS : Bool
  Value : String
  Deleted : Bool
  deriving DecidableEq

/-- Go `Tag`. -/
structure Tag where
  ID : Int
  Name : String
  Color : String
  HideTag : Bool
  deriving DecidableEq

/-- Go `Event`. -/
structure Event where
  ID : Int
  Info : String
  Date : String
  Timestamp : String
  ThreatLevelID : Int
  Published : Bool
  Orgc : Org
  Attributes : Slice Attribute
  Tag : Slice Tag
  deriving DecidableEq

/-- Zero value of `Org`. -/
def Org.zero : Org := { Name := "" }

/-- Zero value of `Attribute`. -/
def Attribute.zero : Attribute :=
  { ID := 0, Type_ := "", ToIDS := false, Value := "", Deleted := false }

/-- Zero value of `Tag`. -/
def Tag.zero : Tag := { ID := 0, Name := "", Color := "", HideTag := false }

/-- Zero value of `Event`. -/
def Event.zero : Event :=
  { ID := 0, Info := "", Date := "", Timestamp := "", ThreatLevelID := 0, Published := false,
    Orgc := Org.zero, Attributes := Slice.nil, Tag := Slice.nil }

/-- The anonymous element type of `tgt.Response`: `struct { Event Event }`. -/
structure Envelope where
  Event : Event
  deriving DecidableEq

/-- Zero value of the envelope. -/
def Envelope.zero : Envelope := { Event := Event.zero }

/-- The anonymous type of `tgt`: `struct { Response []struct{ Event Event } }`. -/
structure SearchTgt where
  Response : Slice Envelope
  deriving DecidableEq

/-! ## Decoding (`encoding/json` directed by the struct tags)

Every decoder takes the current value of its target and returns the updated
value, `none` when `json.Unmarshal` reports an error. JSON `null` leaves a
scalar or struct target as it is; a member whose key matches no field is
skipped; members are processed in the order they appear. -/

/-- Field lookup of `encoding/json`: the field named exactly `key`, else the
first field whose folded name equals the folded key. -/
def findField (std : Std) (names : List String) (key : String) : Option String :=
  if key ∈ names then some key
  else names.find? (fun n => std.foldName n == std.foldName key)

/-- Decoding into a `string` field. -/
def decodeString (cur : String) : JSON → Option String
  | .null => some cur
  | .str s => some s
  | _ => none

/-- Decoding into a `bool` field. -/
def decodeBool (cur : Bool) : JSON → Option Bool
  | .null => some cur
  | .bool b => some b
  | _ => none

/-- The text `item` of a quoted value going into an integer field of `bitSize`
bits tagged `,string`: the text is parsed by `strconv.ParseInt(item, 10, bitSize)`;
a text it rejects is an error, except the text `null`, which leaves the target
as it is. (Earlier releases of `encoding/json` look at the first character
before parsing and so also reject a leading `+`; they accept nothing that is
rejected here.) -/
def literalStoreInt (bitSize : Nat) (cur : Int) (item : String) : Option Int :=
  match ParseInt item bitSize with
  | some n => some n
  | none => if item = "null" then some cur else none

/-- Decoding into an integer field tagged `,string`: the value must be a JSON string. -/
def decodeQuotedInt (bitSize : Nat) (cur : Int) : JSON → Option Int
  | .null => some cur
  | .str item => literalStoreInt bitSize cur item
  | _ => none

/-- Decoding the members of a JSON object one after the other. -/
def decodeMembers {τ : Type} (step : τ → String → JSON → Option τ) :
    τ → List (String × JSON) → Option τ
  | cur, [] => some cur
  | cur, (k, v) :: rest =>
    match step cur k v with
    | none => none
    | some next => decodeMembers step next rest

/-- Decoding into a struct. -/
def decodeStruct {τ : Type} (step : τ → String → JSON → Option τ) (cur : τ) : JSON → Option τ
  | .null => some cur
  | .obj members => decodeMembers step cur members
  | _ => none

/-- Decoding the elements of a JSON array over the backing array of the target
slice: element `i` is decoded into what the backing array holds at `i`
(an element of the slice, or a stale value past its length), and into a zero
value past the backing array. -/
def decodeElems {τ : Type} (dec : τ → JSON → Option τ) (zero : τ) :
    List τ → List JSON → Option (List τ)
  | _, [] => some []
  | backing, v :: rest =>
    match dec (backing.headD zero) v with
    | none => none
    | some x =>
      match decodeElems dec zero backing.tail rest with
      | none => none
      | some xs => some (x :: xs)

/-- Decoding into a slice. JSON `null` gives the nil slice and an empty array
a fresh empty slice; otherwise the length becomes the number of items and the
rest of the backing array is kept as it was. -/
def decodeSlice {τ : Type} (dec : τ → JSON → Option τ) (zero : τ) (cur : Slice τ) :
    JSON → Option (Slice τ)
  | .null => some Slice.nil
  | .arr [] => some Slice.nil
  | .arr (v :: rest) =>
    (decodeElems dec zero (cur.elems ++ cur.spare) (v :: rest)).map
      (fun xs => { elems := xs, spare := (cur.elems ++ cur.spare).drop (v :: rest).length })
  | _ => none

/-- One member of an `Org` object. -/
def orgStep (std : Std) (cur : Org) (key : String) (v : JSON) : Option Org :=
  match findField std ["name"] key with
  | some "name" => (decodeString cur.Name v).map (fun x => { cur with Name := x })
  | _ => some cur

/-- One member of an `Attribute` object. -/
def attributeStep (std : Std) (cur : Attribute) (key : String) (v : JSON) : Option Attribute :=
  match findField std ["id", "type", "to_ids", "value", "deleted"] key with
  | some "id" => (decodeQuotedInt 64 cur.ID v).map (fun x => { cur with ID := x })
  | some "type" => (decodeString cur.Type_ v).map (fun x => { cur with Type_ := x })
  | some "to_ids" => (decodeBool cur.ToIDS v).map (fun x => { cur with ToIDS := x })
  | some "value" => (decodeString cur.Value v).map (fun x => { cur with Value := x })
  | some "deleted" => (decodeBool cur.Deleted v).map (fun x => { cur with Deleted := x })
  | _ => some cur

/-- One member of a `Tag` object. -/
def tagStep (std : Std) (cur : Tag) (key : String) (v : JSON) : Option Tag :=
  match findField std ["id", "name", "colour", "hide_tag"] key with
  | some "id" => (decodeQuotedInt 64 cur.ID v).map (fun x => { cur with ID := x })
  | some "name" => (decodeString cur.Name v).map (fun x => { cur with Name := x })
  | some "colour" => (decodeString cur.Color v).map (fun x => { cur with Color := x })
  | some "hide_tag" => (decodeBool cur.HideTag v).map (fun x => { cur with HideTag := x })
  | _ => some cur

/-- The `json` names of the fields of `Event`, in declaration order. -/
def eventFields : List String :=
  ["id", "info", "date", "timestamp", "threat_level_id", "published", "Orgc", "attribute", "tag"]

/-- One member of an `Event` object. -/
def eventStep (std : Std) (cur : Event) (key : String) (v : JSON) : Option Event :=
  match findField std eventFields key with
  | some "id" => (decodeQuotedInt 64 cur.ID v).map (fun x => { cur with ID := x })
  | some "info" => (decodeString cur.Info v).map (fun x => { cur with Info := x })
  | some "date" => (decodeString cur.Date v).map (fun x => { cur with Date := x })
  | some "timestamp" => (decodeString cur.Timestamp v).map (fun x => { cur with Timestamp := x })
  | some "threat_level_id" =>
    (decodeQuotedInt 8 cur.ThreatLevelID v).map (fun x => { cur with ThreatLevelID := x })
  | some "published" => (decodeBool cur.Published v).map (fun x => { cur with Published := x })
  | some "Orgc" =>
    (decodeStruct (orgStep std) cur.Orgc v).map (fun x => { cur with Orgc := x })
  | some "attribute" =>
    (decodeSlice (decodeStruct (attributeStep std)) Attribute.zero cur.Attributes v).map
      (fun x => { cur with Attributes := x })
  | some "tag" =>
    (decodeSlice (decodeStruct (tagStep std)) Tag.zero cur.Tag v).map
      (fun x => { cur with Tag := x })
  | _ => some cur

/-- Decoding into an `Event`. -/
def decodeEvent (std : Std) (cur : Event) (v : JSON) : Option Event :=
  decodeStruct (eventStep std) cur v

/-- One member of an envelope object. -/
def envelopeStep (std : Std) (cur : Envelope) (key : String) (v : JSON) : Option Envelope :=
  match findField std ["Event"] key with
  | some "Event" => (decodeEvent std cur.Event v).map (fun x => { cur with Event := x })
  | _ => some cur

/-- One member of the response object. -/
def searchTgtStep (std : Std) (cur : SearchTgt) (key : String) (v : JSON) : Option SearchTgt :=
  match findField std ["response"] key with
  | some "response" =>
    (decodeSlice (decodeStruct (envelopeStep std)) Envelope.zero cur.Response v).map
      (fun x => { cur with Response := x })
  | _ => some cur

/-- Decoding into `tgt` of `SearchEvents`. -/
def decodeSearchTgt (std : Std) (cur : SearchTgt) (v : JSON) : Option SearchTgt :=
  decodeStruct (searchTgtStep std) cur v

/-- Go `json.Unmarshal(b, tgt)` for a target decoded by `decode`. -/
def Unmarshal {τ : Type} (decode : τ → JSON → Option τ) (b : Bytes) (tgt : τ) : Except Error τ :=
  match b with
  | none => .error .decode
  | some v =>
    match decode tgt v with
    | none => .error .decode
    | some t => .ok t

/-- The representative of a character under simple case folding, for the
characters that fold to an ASCII character: `a`..`z` and `A`..`Z` pairwise, the
long s (U+017F) with `S`, the Kelvin sign (U+212A) with `K`. -/
def foldRune (c : Char) : Char :=
  if c = Char.ofNat 0x17F then 'S'
  else if c = Char.ofNat 0x212A then 'K'
  else c.toUpper

/-- Key folding under which a key equals an ASCII field name exactly when
`strings.EqualFold` holds of the two. -/
def equalFold (s : String) : String := ⟨s.data.map foldRune⟩

/-! ## Transport primitive -/

/-- Go `(*Client).httpDo`. -/
def httpDo (c : Client) (req : Request) : Except Error Bytes :=
  match c.hc req with
  | .error msg => .error (.transport msg)
  | .ok resp =>
    if resp.StatusCode < 200 ∨ resp.StatusCode > 299 then
      .error (.status resp.StatusCode)
    else
      match resp.Body with
      | .error msg => .error (.read msg)
      | .ok buf => .ok buf

/-- The request `httpPost` hands to `httpDo`. -/
def postRequest (std : Std) (c : Client) (path : String) (body : Option JSON) :
    Except Error Request :=
  match NewRequest std "POST" (c.baseURL ++ path) body with
  | .error err => .error err
  | .ok req =>
    let req := req.setHeader "Content-Type" "application/json"
    let req := req.setHeader "Accept" "application/json"
    let req := req.setHeader "Authorization" c.auth
    .ok req

/-- Go `(*Client).httpPost`; `marshal` is `json.Marshal` on the type of `src`,
`decode` is the decoder of the type of `tgt`. -/
def httpPost {σ τ : Type} (std : Std) (c : Client) (path : String)
    (marshal : σ → Except Error JSON) (src : Option σ)
    (decode : τ → JSON → Option τ) (tgt : τ) : Except Error τ :=
  let body : Except Error (Option JSON) :=
    match src with
    | none => .ok none
    | some v =>
      match marshal v with
      | .error err => .error err
      | .ok b => .ok (some b)
  match body with
  | .error err => .error err
  | .ok body =>
    match postRequest std c path body with
    | .error err => .error err
    | .ok req =>
      match httpDo c req with
      | .error err => .error err
      | .ok b => Unmarshal decode b tgt

/-- Go `(*Client).httpGet`. -/
def httpGet {τ : Type} (std : Std) (c : Client) (path : String)
    (decode : τ → JSON → Option τ) (tgt : τ) : Except Error τ :=
  match NewRequest std "GET" (c.baseURL ++ path) none with
  | .error err => .error err
  | .ok req =>
    let req := req.setHeader "Accept" "application/json"
    let req := req.setHeader "Authorization" c.auth
    match httpDo c req with
    | .error err => .error err
    | .ok b => Unmarshal decode b tgt

/-! ## Event search -/

/-- The anonymous type of `src` in `SearchEvents`. -/
structure SearchSrc where
  Tags : String
  From : String
  To : String
  Last : String
  EventID : String
  Metadata : Bool
  Timestamp : String
  Limit : String
  Page : String
  deriving DecidableEq

/-- A `string` field tagged `omitempty`. -/
def omitemptyString (name value : String) : List (String × JSON) :=
  if value = "" then [] else [(name, .str value)]

/-- A `bool` field tagged `omitempty`. -/
def omitemptyBool (name : String) (value : Bool) : List (String × JSON) :=
  if value = false then [] else [(name, .bool value)]

/-- A `string` field without options. -/
def plainString (name value : String) : List (String × JSON) := [(name, .str value)]

/-- Go `json.Marshal` on `src`, as directed by its struct tags (it has no
failure on a struct of strings and a bool). -/
def marshalSearchSrc (src : SearchSrc) : JSON :=
  .obj (
    omitemptyString "tags" src.Tags ++
    omitemptyString "from" src.From ++
    omitemptyString "to" src.To ++
    omitemptyString "last" src.Last ++
    omitemptyString "eventid" src.EventID ++
    omitemptyBool "metadata" src.Metadata ++
    omitemptyString "timestamp" src.Timestamp ++
    plainString "limit" src.Limit ++
    plainString "page" src.Page)

/-- The value of `src` when `SearchEvents` calls `httpPost`; `timestamp` is
`none` for a nil pointer and `some t.Unix()` otherwise. -/
def searchSrc (tags notTags : List String) (from_ to_ last eventid : String) (metadata : Bool)
    (timestamp : Option Int) (limit page : Int) : SearchSrc :=
  let src : SearchSrc :=
    { Tags := chain tags notTags, From := from_, To := to_, Last := last, EventID := eventid,
      Metadata := metadata, Timestamp := "", Limit := "", Page := "" }
  let src :=
    match timestamp with
    | some unix => { src with Timestamp := FormatInt unix }
    | none => src
  if limit > 0 then { src with Limit := Itoa limit, Page := Itoa page } else src

/-- The JSON object `SearchEvents` sends as the request body. -/
def searchBody (tags notTags : List String) (from_ to_ last eventid : String) (metadata : Bool)
    (timestamp : Option Int) (limit page : Int) : JSON :=
  marshalSearchSrc (searchSrc tags notTags from_ to_ last eventid metadata timestamp limit page)

/-- The loop `for i, ev := range tgt.Response { events[i] = ev.Event }`. -/
def unwrapLoop : Nat → List Event → List Envelope → List Event
  | _, events, [] => events
  | i, events, ev :: rest => unwrapLoop (i + 1) (events.set i ev.Event) rest

/-- The named results `(events []Event, err error)` of `SearchEvents`. -/
structure SearchResult where
  events : Option (List Event)
  err : Option Error
  deriving DecidableEq

/-- Go `(*Client).SearchEvents`. -/
def SearchEvents (std : Std) (c : Client) (tags notTags : List String)
    (from_ to_ last eventid : String) (metadata : Bool) (timestamp : Option Int)
    (limit page : Int) : SearchResult :=
  let src := searchSrc tags notTags from_ to_ last eventid metadata timestamp limit page
  let tgt : SearchTgt := { Response := Slice.nil }
  match httpPost std c "/events/restSearch/download/" (fun s => .ok (marshalSearchSrc s)) (some src)
      (decodeSearchTgt std) tgt with
  | .error err => { events := none, err := some err }
  | .ok tgt =>
    let events := List.replicate tgt.Response.elems.length Event.zero
    { events := some (unwrapLoop 0 events tgt.Response.elems), err := none }

/-! ## Specification-side predicates and fixtures of the examples -/

/-- Specification side: an optional sign `+` or `-` followed by one or more
decimal digits. -/
def isDecimalInteger (s : String) : Bool :=
  match s.data with
  | [] => false
  | c :: rest =>
    if c = '+' ∨ c = '-' then !rest.isEmpty && rest.all (fun d => (digitVal d).isSome)
    else (c :: rest).all (fun d => (digitVal d).isSome)

/-- Specification side: the number a string of decimal digits denotes. -/
def digitsValue (ds : List Char) : Nat :=
  ds.foldl (fun n d => n * 10 + (d.toNat - 48)) 0

/-- Specification side: the integer an optionally signed string of decimal
digits denotes. -/
def decimalValue (s : String) : Int :=
  match s.data with
  | [] => 0
  | c :: rest =>
    if c = '-' then -(digitsValue rest : Int)
    else if c = '+' then (digitsValue rest : Int)
    else (digitsValue (c :: rest) : Int)

/-- The envelope `{"Event": e}` the search endpoint wraps an event in. -/
def wrapEvent (e : JSON) : JSON := .obj [("Event", e)]

/-- The response body `{"response": [{"Event": e}, ...]}` of the search endpoint. -/
def searchResponse (events : List JSON) : JSON :=
  .obj [("response", .arr (events.map wrapEvent))]

/-- A library whose `http.NewRequest` accepts every URL. -/
def plainStd : Std := { urlError := fun _ => none, foldName := equalFold }

/-- A client whose transport answers every request with the given status and body. -/
def fixedClient (status : Int) (body : Except String Bytes) : Client :=
  { hc := fun _ => .ok { StatusCode := status, Body := body }, auth := "test-auth",
    baseURL := "https://misp.test" }

/-- The event of the test response, cut down to the members the model reads. -/
def testEventJSON : JSON :=
  .obj [("id", .str "1488"), ("orgc_id", .str "2"), ("date", .str "2020-01-22"),
    ("threat_level_id", .str "3"), ("info", .str "Test Event"), ("published", .bool false),
    ("timestamp", .str "1579771919"),
    ("Org", .obj [("id", .str "2"), ("name", .str "Test Org")]),
    ("Orgc", .obj [("id", .str "2"), ("name", .str "Test Org")]),
    ("Attribute", .arr [.obj [("id", .str "193850"), ("type", .str "yara"),
      ("category", .str "Payload delivery"), ("to_ids", .bool true), ("deleted", .bool false),
      ("object_relation", .null),
      ("value", .str "rule Test \x7bcondition: uint16(0) == 0x5a4d\x7d"), ("Galaxy", .arr [])]]),
    ("RelatedEvent", .arr []),
    ("Tag", .arr [.obj [("id", .str "6"), ("name", .str "test_tag"), ("colour", .str "#140303"),
      ("exportable", .bool true), ("user_id", .bool false), ("hide_tag", .bool false)]])]

/-- Specification side: the object has a member named `key` exactly when
`present` holds, and then the value of that member is `v`. -/
def memberWhen (body : JSON) (key : String) (present : Prop) (v : JSON) : Prop :=
  (body.hasKey key = true ↔ present) ∧ (present → body.get? key = some v)

/-- The request `SearchEvents` builds for `fixedClient` when called without any filter. -/
def testRequest : Request :=
  { Method := "POST", URL := "https://misp.test/events/restSearch/download/",
    Header := [("Content-Type", "application/json"), ("Accept", "application/json"),
      ("Authorization", "test-auth")],
    Body := some (searchBody [] [] "" "" "" "" false none 0 0) }

/-- The request `httpPost` builds for `fixedClient` around the given body. -/
def fixedRequest (body : JSON) : Request :=
  { Method := "POST", URL := "https://misp.test/events/restSearch/download/",
    Header := [("Content-Type", "application/json"), ("Accept", "application/json"),
      ("Authorization", "test-auth")],
    Body := some body }

/-- A second event of a response, with a signed id and a timestamp that is not a number. -/
def otherEventJSON : JSON :=
  .obj [("id", .str "+5"), ("info", .str "Other Event"), ("timestamp", .str "abc"),
    ("threat_level_id", .str "1"), ("published", .bool true)]

/-- The event `testEventJSON` decodes to. -/
def testEvent : Event :=
  { ID := 1488, Info := "Test Event", Date := "2020-01-22", Timestamp := "1579771919",
    ThreatLevelID := 3, Published := false, Orgc := Org.mk "Test Org",
    Attributes := Slice.of [Attribute.mk 193850 "yara" true
      "rule Test \x7bcondition: uint16(0) == 0x5a4d\x7d" false],
    Tag := Slice.of [Tag.mk 6 "test_tag" "#140303" false] }

/-- The event `otherEventJSON` decodes to. -/
def otherEvent : Event :=
  { ID := 5, Info := "Other Event", Date := "", Timestamp := "abc", ThreatLevelID := 1,
    Published := true, Orgc := Org.zero, Attributes := Slice.nil, Tag := Slice.nil }

/-! ## Theorems -/

/-! ### Tag-expression builder -/

theorem appendAll_append (l1 l2 : List String) :
    appendAll (l1 ++ l2) = appendAll l1 ++ appendAll l2 := by
  induction l1 with
  | nil => simp [appendAll]
  | cons a r ih => simp [appendAll, ih, String.append_assoc]

theorem joinWith_cons (sep a : String) (l : List String) :
    joinWith sep (a :: l) = a ++ appendAll (l.map (fun x => sep ++ x)) := by
  induction l generalizing a with
  | nil => simp [joinWith, appendAll]
  | cons b r ih => simp [joinWith, appendAll, ih, String.append_assoc]

theorem inclLoop_succ (i : Nat) (acc : String) (l : List String) :
    rangeLoop inclStep (i + 1) acc l = acc ++ appendAll (l.map (fun x => "&&" ++ x)) := by
  induction l generalizing i acc with
  | nil => simp [rangeLoop, appendAll]
  | cons b r ih => simp [rangeLoop, appendAll, ih, inclStep, String.append_assoc]

theorem exclLoop_succ (i : Nat) (acc : String) (l : List String) :
    rangeLoop exclStep (i + 1) acc l = acc ++ appendAll (l.map (fun x => "&&!" ++ x)) := by
  induction l generalizing i acc with
  | nil => simp [rangeLoop, appendAll]
  | cons b r ih => simp [rangeLoop, appendAll, ih, exclStep, String.append_assoc]

theorem chain_nil_right (incl : List String) : chain incl [] = rangeLoop inclStep 0 "" incl := by
  simp [chain, rangeLoop]

theorem chain_cons_nil (a : String) (rest : List String) :
    chain (a :: rest) [] = a ++ appendAll (rest.map (fun x => "&&" ++ x)) := by
  simp [chain, rangeLoop, inclStep, inclLoop_succ]

theorem chain_excl_cons (incl : List String) (e : String) (r : List String) :
    chain incl (e :: r) =
      (if chain incl [] = "" then "!" ++ e else chain incl [] ++ ("&&!" ++ e))
        ++ appendAll (r.map (fun x => "&&!" ++ x)) := by
  simp [chain, rangeLoop, exclStep, exclLoop_succ]

theorem str_eq_empty_iff (s : String) : s = "" ↔ s.data = [] := by
  constructor
  · intro h; rw [h]
  · intro h; exact String.ext h

theorem append_eq_empty (s t : String) : s ++ t = "" ↔ s = "" ∧ t = "" := by
  simp [str_eq_empty_iff, String.data_append]

theorem negated_map_sep (r : List String) :
    (negated r).map (fun x => "&&" ++ x) = r.map (fun x => "&&!" ++ x) := by
  simp only [negated, List.map_map]
  apply List.map_congr_left
  intro x _
  show "&&" ++ ("!" ++ x) = "&&!" ++ x
  rw [← String.append_assoc]; rfl

theorem chain_incl_ne_empty (a : String) (rest : List String) (h : a :: rest ≠ [""]) :
    chain (a :: rest) [] ≠ "" := by
  rw [chain_cons_nil]
  intro hc
  rw [append_eq_empty] at hc
  obtain ⟨ha, hr⟩ := hc
  cases rest with
  | nil => exact h (by rw [ha])
  | cons b r =>
    simp only [List.map_cons, appendAll, append_eq_empty] at hr
    have := hr.1.1
    exact absurd this (by decide)

theorem chain_eq_joinWith (incl excl : List String) (h : incl ≠ [""] ∨ excl = []) :
    chain incl excl = joinWith "&&" (incl ++ negated excl) := by
  cases excl with
  | nil =>
    cases incl with
    | nil => rfl
    | cons a rest => simp [chain_cons_nil, negated, joinWith_cons]
  | cons e r =>
    cases incl with
    | nil =>
      rw [chain_excl_cons]
      have h0 : chain [] [] = "" := rfl
      simp only [h0, if_true, List.nil_append]
      show _ = joinWith "&&" (("!" ++ e) :: negated r)
      rw [joinWith_cons, negated_map_sep]
    | cons a rest =>
      have hne : a :: rest ≠ [""] := by
        rcases h with h | h
        · exact h
        · exact absurd h (by simp)
      rw [chain_excl_cons, if_neg (chain_incl_ne_empty a rest hne), chain_cons_nil]
      show _ = joinWith "&&" (a :: (rest ++ negated (e :: r)))
      rw [joinWith_cons, List.map_append, appendAll_append]
      show _ = a ++ (appendAll (List.map (fun x => "&&" ++ x) rest) ++
        appendAll (List.map (fun x => "&&" ++ x) (("!" ++ e) :: negated r)))
      rw [List.map_cons, appendAll, negated_map_sep]
      have : "&&" ++ ("!" ++ e) = "&&!" ++ e := by rw [← String.append_assoc]; rfl
      rw [this]
      simp only [String.append_assoc]

theorem chain_single_empty (excl : List String) : chain [""] excl = chain [] excl := by
  cases excl with
  | nil => rfl
  | cons e r => rw [chain_excl_cons, chain_excl_cons]; rfl

theorem countSep_cons_ne (c : Char) (l : List Char) (hc : c ≠ '&') :
    countSep (c :: l) = countSep l := by
  cases l with
  | nil => rfl
  | cons d r => simp [countSep, hc]

theorem countSep_skip (a l : List Char) (ha : '&' ∉ a) : countSep (a ++ l) = countSep l := by
  induction a with
  | nil => rfl
  | cons c a ih =>
    have hc : c ≠ '&' := fun h => ha (by simp [h])
    have ha2 : '&' ∉ a := fun h => ha (by simp [h])
    rw [List.cons_append, countSep_cons_ne c _ hc, ih ha2]

theorem countSep_sep (l : List Char) : countSep ('&' :: '&' :: l) = countSep l + 1 := by
  simp [countSep]

theorem countSep_terms (ts : List String) (hts : ∀ t ∈ ts, ampFree t) (a : String)
    (ha : ampFree a) :
    countSep (a ++ appendAll (ts.map (fun x => "&&" ++ x))).data = ts.length := by
  induction ts generalizing a with
  | nil =>
    have := countSep_skip a.data [] ha
    simpa [appendAll, countSep] using this
  | cons t r ih =>
    have ht : ampFree t := hts t (by simp)
    have hr : ∀ x ∈ r, ampFree x := fun x hx => hts x (by simp [hx])
    have h1 := ih hr t ht
    simp only [List.map_cons, appendAll, String.data_append] at h1 ⊢
    rw [countSep_skip _ _ ha]
    show countSep ('&' :: '&' :: (t.data ++ _)) = _
    rw [countSep_sep, h1, List.length_cons]

theorem ampFree_negated (excl : List String) (h : ∀ t ∈ excl, ampFree t) :
    ∀ t ∈ negated excl, ampFree t := by
  intro t ht
  simp only [negated, List.mem_map] at ht
  obtain ⟨e, he, rfl⟩ := ht
  have := h e he
  simp only [ampFree, String.data_append] at this ⊢
  intro hmem
  rcases List.mem_append.mp hmem with h1 | h1
  · revert h1; decide
  · exact this h1

theorem chain_countSep (incl excl : List String)
    (hfree : ∀ t ∈ incl ++ excl, ampFree t)
    (h : incl ≠ [""] ∨ excl = [])
    (hlen : incl.length + excl.length ≠ 0) :
    countSep (chain incl excl).data = incl.length + excl.length - 1 := by
  rw [chain_eq_joinWith incl excl h]
  have hall : ∀ t ∈ incl ++ negated excl, ampFree t := by
    intro t ht
    rcases List.mem_append.mp ht with h1 | h1
    · exact hfree t (List.mem_append.mpr (Or.inl h1))
    · exact ampFree_negated excl (fun x hx => hfree x (List.mem_append.mpr (Or.inr hx))) t h1
  have hl : (incl ++ negated excl).length = incl.length + excl.length := by
    simp [negated]
  generalize incl ++ negated excl = ts at hall hl
  cases ts with
  | nil => simp at hl; omega
  | cons a l =>
    rw [joinWith_cons, countSep_terms l (fun t ht => hall t (by simp [ht])) a (hall a (by simp))]
    simp at hl; omega


/-- C1, counterexample: with the single empty tag included and one tag excluded,
`chain` gives `!b`, while joining the terms `""` and `!b` with `&&` gives `&&!b`. -/
theorem chain_join_counterexample :
    chain [""] ["b"] = "!b" ∧ joinWith "&&" ([""] ++ negated ["b"]) = "&&!b" ∧
      chain [""] ["b"] ≠ joinWith "&&" ([""] ++ negated ["b"]) := by
  decide

/-- C1, amended: `chain incl excl` is the included tags followed by the negated
excluded tags, joined with `&&`, except when the included list is exactly the
single empty tag and there is an excluded tag; then the empty included term is
dropped and the result is the negated excluded tags joined with `&&`. -/
theorem chain_eq_join (incl excl : List String) :
    chain incl excl =
      if incl = [""] ∧ excl ≠ [] then joinWith "&&" (negated excl)
      else joinWith "&&" (incl ++ negated excl) := by
  by_cases h : incl = [""] ∧ excl ≠ []
  · rw [if_pos h, h.1, chain_single_empty, chain_eq_joinWith [] excl (Or.inl (by simp))]
    rfl
  · rw [if_neg h]
    apply chain_eq_joinWith
    by_cases h1 : incl = [""]
    · right
      by_contra h2
      exact h ⟨h1, h2⟩
    · exact Or.inl h1

/-- C2, counterexample: two tags but no separator when the included list is the
single empty tag; one tag but one separator when the tag itself contains `&&`. -/
theorem chain_count_counterexample :
    ([""].length + ["b"].length ≠ 0 ∧
      countSep (chain [""] ["b"]).data ≠ [""].length + ["b"].length - 1) ∧
    (["a&&b"].length + ([] : List String).length ≠ 0 ∧
      countSep (chain ["a&&b"] []).data ≠ ["a&&b"].length + ([] : List String).length - 1) := by
  decide

/-- C2, amended: `chain` is a total function; on two empty lists it gives the
empty string; and when no tag contains `&`, the included list is not the single
empty tag (or nothing is excluded) and there is at least one tag, the number of
`&&` in the result is the number of tags minus one. -/
theorem chain_count (incl excl : List String)
    (hfree : ∀ t ∈ incl ++ excl, ampFree t)
    (h : incl ≠ [""] ∨ excl = [])
    (hlen : incl.length + excl.length ≠ 0) :
    chain [] [] = "" ∧
      countSep (chain incl excl).data = incl.length + excl.length - 1 :=
  ⟨rfl, chain_countSep incl excl hfree h hlen⟩

/-- Witness of `chain_count` on the example of the package's test. -/
theorem chain_count_witness :
    chain [] [] = "" ∧
      countSep (chain ["+tag1", "+tag2"] ["-tag1", "-tag2"]).data = 2 + 2 - 1 :=
  chain_count ["+tag1", "+tag2"] ["-tag1", "-tag2"] (by decide) (by decide) (by decide)

/-- C10: with a first excluded tag `e` and further excluded tags `r`, the result
starts with `!e` when the included tags produced the empty string and is the
included part followed by `&&!e` otherwise; each further excluded tag follows
as `&&!r`. The included part itself is the first included tag followed by
`&&t` for each further included tag `t`. -/
theorem chain_separator_placement (incl : List String) (e : String) (r : List String) :
    chain incl (e :: r) =
        (if chain incl [] = "" then "!" ++ e else chain incl [] ++ ("&&!" ++ e))
          ++ appendAll (r.map (fun x => "&&!" ++ x)) ∧
      chain [] [] = "" ∧
      (∀ (a : String) (rest : List String),
        chain (a :: rest) [] = a ++ appendAll (rest.map (fun x => "&&" ++ x))) :=
  ⟨chain_excl_cons incl e r, rfl, chain_cons_nil⟩

/-! ### Client construction -/

theorem TrimSuffix_slash_cases (s : String) :
    (∃ v, s.data = v ++ ['/'] ∧ (TrimSuffix s "/").data = v) ∨
      (¬ ['/'] <:+ s.data ∧ TrimSuffix s "/" = s) := by
  unfold TrimSuffix HasSuffix
  by_cases h : ['/'] <:+ s.data
  · left
    obtain ⟨v, hv⟩ := h
    refine ⟨v, hv.symm, ?_⟩
    have h2 : ("/" : String).data.isSuffixOf s.data = true := by
      rw [List.isSuffixOf_iff_suffix]; exact ⟨v, hv⟩
    rw [if_pos h2, ← hv]
    show List.take ((v ++ ['/']).length - 1) (v ++ ['/']) = v
    simp
  · right
    refine ⟨h, ?_⟩
    have h2 : ¬ (("/" : String).data.isSuffixOf s.data = true) := by
      rw [List.isSuffixOf_iff_suffix]; exact h
    rw [if_neg h2]

theorem HasPrefix_iff (s p : String) : HasPrefix s p = true ↔ p.data <+: s.data := by
  unfold HasPrefix; rw [List.isPrefixOf_iff_prefix]

theorem HasSuffix_iff (s p : String) : HasSuffix s p = true ↔ p.data <:+ s.data := by
  unfold HasSuffix; rw [List.isSuffixOf_iff_suffix]

theorem two_suffix_concat (l : List Char) (a b c d : Char) :
    [a, b] <:+ l ++ [c, d] ↔ a = c ∧ b = d := by
  rw [← List.reverse_prefix]
  simp
  tauto

theorem str_eq_iff_data (s t : String) : s = t ↔ s.data = t.data :=
  ⟨fun h => by rw [h], fun h => String.ext h⟩

/-- The base URL after the scheme has been defaulted. -/
theorem scheme_defaulted (b : List Char)
    (u : List Char)
    (hu : u = if (!("http://" : String).data.isPrefixOf b && !("https://" : String).data.isPrefixOf b) = true
      then ("https://" : String).data ++ b else b) :
    (("http://" : String).data <+: u ∨ ("https://" : String).data <+: u) ∧
    (u = ("http://" : String).data ↔ b = ("http://" : String).data) ∧
    (u = ("https://" : String).data ↔ (b = [] ∨ b = ("https://" : String).data)) ∧
    (['/', '/'] <:+ u ↔ (b = [] ∨ b = ['/'] ∨ ['/', '/'] <:+ b)) := by
  have e1 : ("http://" : String).data = ['h', 't', 't', 'p', ':', '/', '/'] := rfl
  have e2 : ("https://" : String).data = ['h', 't', 't', 'p', 's', ':', '/', '/'] := rfl
  by_cases h1 : ("http://" : String).data <+: b
  · have hub : u = b := by
      rw [hu, if_neg]; simp [List.isPrefixOf_iff_prefix, h1]
    obtain ⟨t, ht⟩ := h1
    subst hub
    refine ⟨Or.inl ⟨t, ht⟩, Iff.rfl, ?_, ?_⟩
    · rw [← ht, e1, e2]; simp
    · rw [← ht, e1]; simp
  · by_cases h2 : ("https://" : String).data <+: b
    · have hub : u = b := by
        rw [hu, if_neg]; simp [List.isPrefixOf_iff_prefix, h2]
      obtain ⟨t, ht⟩ := h2
      subst hub
      refine ⟨Or.inr ⟨t, ht⟩, Iff.rfl, ?_, ?_⟩
      · rw [← ht, e2]; simp
      · rw [← ht, e2]; simp
    · have h1b : ("http://" : String).data.isPrefixOf b = false := by
        rw [Bool.eq_false_iff]; intro h; exact h1 (List.isPrefixOf_iff_prefix.mp h)
      have h2b : ("https://" : String).data.isPrefixOf b = false := by
        rw [Bool.eq_false_iff]; intro h; exact h2 (List.isPrefixOf_iff_prefix.mp h)
      have hub : u = ("https://" : String).data ++ b := by
        rw [hu, h1b, h2b]; rfl
      subst hub
      refine ⟨Or.inr (List.prefix_append _ _), ?_, ?_, ?_⟩
      · constructor
        · intro h; rw [e1, e2] at h; simp at h
        · intro h; exact absurd (h ▸ List.prefix_refl _) h1
      · constructor
        · intro h; left; simpa using h
        · rintro (h | h)
          · simp [h]
          · exact absurd (h ▸ List.prefix_refl _) h2
      · rcases List.eq_nil_or_concat b with hb | ⟨b1, x, hb⟩
        · subst hb; rw [e2]; simp
          exact ⟨['h', 't', 't', 'p', 's', ':'], rfl⟩
        · rcases List.eq_nil_or_concat b1 with hb1 | ⟨b2, y, hb1⟩
          · subst hb1; subst hb
            rw [e2]
            have := two_suffix_concat ['h', 't', 't', 'p', 's', ':', '/'] '/' '/' '/' x
            simp at this ⊢
            rw [this]
            constructor
            · intro h; left; exact h.symm
            · rintro (h | h)
              · exact h.symm
              · have := h.length_le; simp at this
          · subst hb1; subst hb
            have k1 := two_suffix_concat (("https://" : String).data ++ b2) '/' '/' y x
            have k2 := two_suffix_concat b2 '/' '/' y x
            simp only [List.concat_eq_append, List.append_assoc, List.singleton_append] at k1 k2 ⊢
            rw [k1, k2]
            constructor
            · intro h; exact Or.inr (Or.inr h)
            · rintro (h | h | h)
              · simp at h
              · have := congrArg List.length h
                simp at this
              · exact h

/-- C8, counterexample: only one trailing slash is stripped, so the input
`misp.test//` is stored as `https://misp.test/`, which ends with `/`; and the
input `http://` is stored as `http:/`, which begins with neither scheme. -/
theorem New_counterexample :
    (∃ c, New (fun _ => .error "down") "misp.test//" "key" = .ok c ∧
      c.baseURL = "https://misp.test/" ∧ HasSuffix c.baseURL "/" = true) ∧
    (∃ c, New (fun _ => .error "down") "http://" "key" = .ok c ∧
      c.baseURL = "http:/" ∧ HasPrefix c.baseURL "http://" = false ∧
      HasPrefix c.baseURL "https://" = false) :=
  ⟨⟨_, rfl, by decide, by decide⟩, ⟨_, rfl, by decide, by decide, by decide⟩⟩

/-- C8, amended: `New` returns a client without error and stores the credential
unchanged. The stored base URL is the input with `https://` put in front when it
had neither scheme, and one trailing `/` removed; it begins with `http://` or
`https://` exactly when the input is none of the empty string, `http://`,
`https://`, and it ends with `/` exactly when the input is empty, is `/`, or
ends with `//`. -/
theorem New_normalizes (httpClient : Request → Except String Response) (baseURL auth : String) :
    ∃ c, New httpClient baseURL auth = .ok c ∧ c.auth = auth ∧
      c.baseURL = TrimSuffix (if (!HasPrefix baseURL "http://" && !HasPrefix baseURL "https://") = true
        then "https://" ++ baseURL else baseURL) "/" ∧
      ((HasPrefix c.baseURL "http://" = true ∨ HasPrefix c.baseURL "https://" = true) ↔
        (baseURL ≠ "" ∧ baseURL ≠ "http://" ∧ baseURL ≠ "https://")) ∧
      (HasSuffix c.baseURL "/" = true ↔
        (baseURL = "" ∨ baseURL = "/" ∨ HasSuffix baseURL "//" = true)) := by
  refine ⟨_, rfl, rfl, rfl, ?_⟩
  generalize hs : (if (!HasPrefix baseURL "http://" && !HasPrefix baseURL "https://") = true
        then "https://" ++ baseURL else baseURL) = s
  have hu : s.data = if (!("http://" : String).data.isPrefixOf baseURL.data &&
      !("https://" : String).data.isPrefixOf baseURL.data) = true
      then ("https://" : String).data ++ baseURL.data else baseURL.data := by
    rw [← hs]
    unfold HasPrefix
    split <;> simp [String.data_append]
  obtain ⟨hpre, hp1, hp2, hss⟩ := scheme_defaulted baseURL.data s.data hu
  have e1 : ("http://" : String).data = ['h', 't', 't', 'p', ':', '/', '/'] := rfl
  have e2 : ("https://" : String).data = ['h', 't', 't', 'p', 's', ':', '/', '/'] := rfl
  have e3 : ("/" : String).data = ['/'] := rfl
  have e4 : ("//" : String).data = ['/', '/'] := rfl
  have e5 : ("" : String).data = [] := rfl
  show ((HasPrefix (TrimSuffix s "/") "http://" = true ∨
      HasPrefix (TrimSuffix s "/") "https://" = true) ↔ _) ∧
    (HasSuffix (TrimSuffix s "/") "/" = true ↔ _)
  simp only [HasPrefix_iff, HasSuffix_iff, str_eq_iff_data, Ne, e3, e4, e5]
  rw [← hp1, ← hss]
  have hne : (¬ baseURL.data = [] ∧ ¬ s.data = ("http://" : String).data ∧
      ¬ baseURL.data = ("https://" : String).data) ↔
      (¬ s.data = ("http://" : String).data ∧ ¬ s.data = ("https://" : String).data) := by
    rw [hp2]; tauto
  rw [hne]
  rcases TrimSuffix_slash_cases s with ⟨v, hv, hr⟩ | ⟨hno, hr⟩
  · rw [hr, hv]
    rw [hv] at hpre
    rw [e1, e2] at hpre ⊢
    constructor
    · constructor
      · rintro (h | h)
        · have hl := h.length_le
          simp only [List.length_cons, List.length_nil] at hl
          constructor
          · intro hq
            have := congrArg List.length hq
            simp at this; omega
          · intro hq
            have hq2 : v ++ ['/'] = ['h', 't', 't', 'p', 's', ':', '/'] ++ ['/'] := hq
            have hv2 : v = ['h', 't', 't', 'p', 's', ':', '/'] := List.append_cancel_right hq2
            rw [hv2] at h
            simp at h
        · have hl := h.length_le
          simp only [List.length_cons, List.length_nil] at hl
          constructor
          · intro hq
            have := congrArg List.length hq
            simp at this; omega
          · intro hq
            have := congrArg List.length hq
            simp at this; omega
      · rintro ⟨n1, n2⟩
        rcases hpre with h | h
        · left
          rcases List.prefix_concat_iff.mp h with h | h
          · exact absurd h.symm n1
          · exact h
        · right
          rcases List.prefix_concat_iff.mp h with h | h
          · exact absurd h.symm n2
          · exact h
    · have k1 : ['/'] <:+ v ↔ ['/'].reverse <+: v.reverse := List.reverse_prefix.symm
      have k2 : ['/', '/'] <:+ v ++ ['/'] ↔ ['/', '/'].reverse <+: (v ++ ['/']).reverse :=
        List.reverse_prefix.symm
      rw [k1, k2]
      simp
  · rw [hr]
    constructor
    · constructor
      · intro _
        constructor
        · intro hq; apply hno; rw [hq, e1]; exact ⟨['h', 't', 't', 'p', ':', '/'], rfl⟩
        · intro hq; apply hno; rw [hq, e2]; exact ⟨['h', 't', 't', 'p', 's', ':', '/'], rfl⟩
      · intro _; exact hpre
    · constructor
      · intro h; exact absurd h hno
      · intro h; exact absurd (List.IsSuffix.trans ⟨['/'], rfl⟩ h) hno

/-! ### Decimal formatting -/

theorem digitVal_digitChar (d : Nat) (h : d < 10) : digitVal (digitChar d) = some d := by
  interval_cases d <;> decide

theorem digitChar_ne_sign (d : Nat) (h : d < 10) : digitChar d ≠ '+' ∧ digitChar d ≠ '-' := by
  interval_cases d <;> decide

theorem parseDigits_formatBits (fuel u : Nat) (acc : List Char) (h : u < fuel) :
    parseDigits 0 (formatBits fuel u acc) = parseDigits u acc := by
  induction fuel generalizing u acc with
  | zero => omega
  | succ fuel ih =>
    unfold formatBits
    by_cases hu : u < 10
    · rw [if_pos hu]
      simp [parseDigits, digitVal_digitChar u hu]
    · rw [if_neg hu, ih (u / 10) _ (by omega)]
      have hd := digitVal_digitChar (u % 10) (Nat.mod_lt _ (by norm_num))
      simp only [parseDigits, hd]
      congr 1
      omega

theorem formatBits_cons (fuel u : Nat) (acc : List Char) :
    ∃ d rest, d < 10 ∧ formatBits (fuel + 1) u acc = digitChar d :: rest := by
  induction fuel generalizing u acc with
  | zero =>
    unfold formatBits
    by_cases hu : u < 10
    · exact ⟨u, acc, hu, by rw [if_pos hu]⟩
    · exact ⟨u % 10, acc, Nat.mod_lt _ (by norm_num), by rw [if_neg hu]; rfl⟩
  | succ fuel ih =>
    unfold formatBits
    by_cases hu : u < 10
    · exact ⟨u, acc, hu, by rw [if_pos hu]⟩
    · rw [if_neg hu]
      exact ih (u / 10) _

theorem ParseUint_formatBits (u : Nat) (h : u < 2 ^ 64) :
    ParseUint (formatBits (u + 1) u []) = some u := by
  obtain ⟨d, rest, _, hd⟩ := formatBits_cons u u []
  have hp := parseDigits_formatBits (u + 1) u [] (by omega)
  rw [hd] at hp ⊢
  show (match parseDigits 0 (digitChar d :: rest) with
    | none => none
    | some n => if n < 2 ^ 64 then some n else none) = some u
  rw [hp]
  simp only [parseDigits]
  rw [if_pos h]

/-- Reading back what `FormatInt` writes gives the number. -/
theorem ParseInt_FormatInt (i : Int) (hlo : -(2 : Int) ^ 63 ≤ i) (hhi : i < (2 : Int) ^ 63) :
    ParseInt (FormatInt i) 64 = some i := by
  unfold FormatInt
  by_cases hneg : i < 0
  · rw [if_pos hneg]
    have hu : i.natAbs < 2 ^ 64 := by omega
    have hp := ParseUint_formatBits i.natAbs hu
    have hle : i.natAbs ≤ 2 ^ (64 - 1) := by norm_num; omega
    show (match ParseUint (formatBits (i.natAbs + 1) i.natAbs []) with
      | none => none
      | some un =>
        if decide ('-' = '-') = true then (if un ≤ 2 ^ (64 - 1) then some (-(un : Int)) else none)
        else (if un < 2 ^ (64 - 1) then some (un : Int) else none)) = some i
    rw [hp]
    simp only [decide_True, if_true, if_pos hle]
    congr 1
    omega
  · rw [if_neg hneg]
    have hu : i.natAbs < 2 ^ 64 := by omega
    have hp := ParseUint_formatBits i.natAbs hu
    obtain ⟨d, rest, hd10, hd⟩ := formatBits_cons i.natAbs i.natAbs []
    rw [hd] at hp
    obtain ⟨hs1, hs2⟩ := digitChar_ne_sign d hd10
    have hlt : i.natAbs < 2 ^ (64 - 1) := by norm_num; omega
    have hdm : digitChar d ≠ '-' := hs2
    simp only [ParseInt, hd, hs1, hs2, or_self, if_false]
    rw [hp]
    simp only [hdm, decide_False, if_pos hlt]
    simp
    omega

/-! ### Request body of the event search -/

theorem lookup_omitemptyString (key name value : String) (rest : List (String × JSON)) :
    (omitemptyString name value ++ rest).lookup key =
      if value ≠ "" ∧ key = name then some (.str value) else rest.lookup key := by
  unfold omitemptyString
  by_cases hv : value = ""
  · simp [hv]
  · by_cases hk : key = name
    · simp [hv, hk, List.lookup]
    · have : (key == name) = false := by simpa using hk
      simp [hv, hk, List.lookup, this]

theorem lookup_omitemptyBool (key name : String) (value : Bool) (rest : List (String × JSON)) :
    (omitemptyBool name value ++ rest).lookup key =
      if value = true ∧ key = name then some (.bool true) else rest.lookup key := by
  unfold omitemptyBool
  cases value
  · simp
  · by_cases hk : key = name
    · simp [hk, List.lookup]
    · have : (key == name) = false := by simpa using hk
      simp [hk, List.lookup, this]

theorem lookup_plainString (key name value : String) (rest : List (String × JSON)) :
    (plainString name value ++ rest).lookup key =
      if key = name then some (.str value) else rest.lookup key := by
  unfold plainString
  by_cases hk : key = name
  · simp [hk, List.lookup]
  · have : (key == name) = false := by simpa using hk
    simp [hk, List.lookup, this]

theorem any_omitemptyString (key name value : String) (rest : List (String × JSON)) :
    (omitemptyString name value ++ rest).any (fun m => m.1 == key) =
      ((decide (value ≠ "") && (name == key)) || rest.any (fun m => m.1 == key)) := by
  unfold omitemptyString
  by_cases hv : value = ""
  · simp [hv]
  · simp [hv]

theorem any_omitemptyBool (key name : String) (value : Bool) (rest : List (String × JSON)) :
    (omitemptyBool name value ++ rest).any (fun m => m.1 == key) =
      ((value && (name == key)) || rest.any (fun m => m.1 == key)) := by
  unfold omitemptyBool
  cases value <;> simp

theorem any_plainString (key name value : String) (rest : List (String × JSON)) :
    (plainString name value ++ rest).any (fun m => m.1 == key) =
      ((name == key) || rest.any (fun m => m.1 == key)) := by
  unfold plainString
  simp

theorem get?_searchBody (key : String) (src : SearchSrc) :
    (marshalSearchSrc src).get? key =
      if src.Tags ≠ "" ∧ key = "tags" then some (.str src.Tags)
      else if src.From ≠ "" ∧ key = "from" then some (.str src.From)
      else if src.To ≠ "" ∧ key = "to" then some (.str src.To)
      else if src.Last ≠ "" ∧ key = "last" then some (.str src.Last)
      else if src.EventID ≠ "" ∧ key = "eventid" then some (.str src.EventID)
      else if src.Metadata = true ∧ key = "metadata" then some (.bool true)
      else if src.Timestamp ≠ "" ∧ key = "timestamp" then some (.str src.Timestamp)
      else if key = "limit" then some (.str src.Limit)
      else if key = "page" then some (.str src.Page)
      else none := by
  unfold marshalSearchSrc JSON.get?
  have : plainString "page" src.Page = plainString "page" src.Page ++ [] := by simp
  rw [this]
  simp only [List.append_assoc, lookup_omitemptyString, lookup_omitemptyBool, lookup_plainString]
  rfl

theorem hasKey_searchBody (key : String) (src : SearchSrc) :
    (marshalSearchSrc src).hasKey key =
      ((decide (src.Tags ≠ "") && ("tags" == key)) ||
      ((decide (src.From ≠ "") && ("from" == key)) ||
      ((decide (src.To ≠ "") && ("to" == key)) ||
      ((decide (src.Last ≠ "") && ("last" == key)) ||
      ((decide (src.EventID ≠ "") && ("eventid" == key)) ||
      ((src.Metadata && ("metadata" == key)) ||
      ((decide (src.Timestamp ≠ "") && ("timestamp" == key)) ||
      (("limit" == key) || ("page" == key))))))))) := by
  unfold marshalSearchSrc JSON.hasKey
  have : plainString "page" src.Page = plainString "page" src.Page ++ [] := by simp
  rw [this]
  simp only [List.append_assoc, any_omitemptyString, any_omitemptyBool, any_plainString]
  simp

theorem searchSrc_fields (tags notTags : List String) (from_ to_ last eventid : String)
    (metadata : Bool) (timestamp : Option Int) (limit page : Int) :
    let src := searchSrc tags notTags from_ to_ last eventid metadata timestamp limit page
    src.Tags = chain tags notTags ∧ src.From = from_ ∧ src.To = to_ ∧ src.Last = last ∧
      src.EventID = eventid ∧ src.Metadata = metadata ∧
      src.Limit = (if limit > 0 then Itoa limit else "") ∧
      src.Page = (if limit > 0 then Itoa page else "") := by
  unfold searchSrc
  cases timestamp <;> by_cases h : limit > 0 <;> simp [h]

/-- C5: in the request body of `SearchEvents`, each of `tags`, `from`, `to`,
`last`, `eventid` is a member exactly when its value is not the empty string,
and the member then carries that value as a JSON string; `metadata` is a
member exactly when the flag is true, and then carries `true`. -/
theorem searchBody_optional_members (tags notTags : List String)
    (from_ to_ last eventid : String) (metadata : Bool) (timestamp : Option Int)
    (limit page : Int) :
    memberWhen (searchBody tags notTags from_ to_ last eventid metadata timestamp limit page)
        "tags" (chain tags notTags ≠ "") (.str (chain tags notTags)) ∧
      memberWhen (searchBody tags notTags from_ to_ last eventid metadata timestamp limit page)
        "from" (from_ ≠ "") (.str from_) ∧
      memberWhen (searchBody tags notTags from_ to_ last eventid metadata timestamp limit page)
        "to" (to_ ≠ "") (.str to_) ∧
      memberWhen (searchBody tags notTags from_ to_ last eventid metadata timestamp limit page)
        "last" (last ≠ "") (.str last) ∧
      memberWhen (searchBody tags notTags from_ to_ last eventid metadata timestamp limit page)
        "eventid" (eventid ≠ "") (.str eventid) ∧
      memberWhen (searchBody tags notTags from_ to_ last eventid metadata timestamp limit page)
        "metadata" (metadata = true) (.bool true) := by
  obtain ⟨h1, h2, h3, h4, h5, h6, -, -⟩ :=
    searchSrc_fields tags notTags from_ to_ last eventid metadata timestamp limit page
  simp only [memberWhen, searchBody, get?_searchBody, hasKey_searchBody, h1, h2, h3, h4, h5, h6]
  simp

/-- C3, the code at the failing inputs: with `limit` zero or negative the body
still has the members `limit` and `page`, each holding the empty string. -/
theorem searchBody_limit_nonpositive :
    (searchBody [] [] "" "" "" "" false none 0 0).hasKey "limit" = true ∧
      (searchBody [] [] "" "" "" "" false none 0 0).hasKey "page" = true ∧
      (searchBody [] [] "" "" "" "" false none 0 0).get? "limit" = some (.str "") ∧
      (searchBody [] [] "" "" "" "" false none 0 0).get? "page" = some (.str "") ∧
      (searchBody ["a"] [] "" "" "" "" false none (-5) 3).hasKey "limit" = true ∧
      (searchBody ["a"] [] "" "" "" "" false none (-5) 3).hasKey "page" = true ∧
      (searchBody ["a"] [] "" "" "" "" false none (-5) 3).get? "limit" = some (.str "") ∧
      (searchBody ["a"] [] "" "" "" "" false none (-5) 3).get? "page" = some (.str "") :=
  ⟨rfl, rfl, rfl, rfl, rfl, rfl, rfl, rfl⟩

/-- The members `limit` and `page` are there on every call; they hold the empty
string when `limit` is not positive. -/
theorem searchBody_limit_page_always (tags notTags : List String)
    (from_ to_ last eventid : String) (metadata : Bool) (timestamp : Option Int)
    (limit page : Int) :
    let body := searchBody tags notTags from_ to_ last eventid metadata timestamp limit page
    body.hasKey "limit" = true ∧ body.hasKey "page" = true ∧
      body.get? "limit" = some (.str (if limit > 0 then Itoa limit else "")) ∧
      body.get? "page" = some (.str (if limit > 0 then Itoa page else "")) := by
  obtain ⟨-, -, -, -, -, -, h7, h8⟩ :=
    searchSrc_fields tags notTags from_ to_ last eventid metadata timestamp limit page
  simp only [searchBody, get?_searchBody, hasKey_searchBody, h7, h8]
  simp

/-- C4: with `limit > 0` the request body has the members `limit` and `page`;
their values are the JSON strings `Itoa limit` and `Itoa page`, which are the
decimal representations: reading them back with `ParseInt` gives `limit` and
`page` (both are Go `int`s, so within the 64-bit range). -/
theorem searchBody_limit_positive (tags notTags : List String)
    (from_ to_ last eventid : String) (metadata : Bool) (timestamp : Option Int)
    (limit page : Int) (hpos : 0 < limit) (hlimit : limit < (2 : Int) ^ 63)
    (hpage : -(2 : Int) ^ 63 ≤ page ∧ page < (2 : Int) ^ 63) :
    (searchBody tags notTags from_ to_ last eventid metadata timestamp limit page).hasKey
        "limit" = true ∧
      (searchBody tags notTags from_ to_ last eventid metadata timestamp limit page).hasKey
        "page" = true ∧
      (searchBody tags notTags from_ to_ last eventid metadata timestamp limit page).get?
        "limit" = some (.str (Itoa limit)) ∧
      (searchBody tags notTags from_ to_ last eventid metadata timestamp limit page).get?
        "page" = some (.str (Itoa page)) ∧
      ParseInt (Itoa limit) 64 = some limit ∧ ParseInt (Itoa page) 64 = some page := by
  obtain ⟨h1, h2, h3, h4⟩ :=
    searchBody_limit_page_always tags notTags from_ to_ last eventid metadata timestamp limit page
  have hgt : limit > 0 := hpos
  rw [if_pos hgt] at h3 h4
  exact ⟨h1, h2, h3, h4, ParseInt_FormatInt limit (by omega) hlimit,
    ParseInt_FormatInt page hpage.1 hpage.2⟩

/-- Witness of `searchBody_limit_positive`: `limit = 10`, `page = 2` are sent as `"10"` and `"2"`. -/
theorem searchBody_limit_positive_witness :
    (searchBody ["+tag"] ["-tag"] "" "" "7d" "" true none 10 2).hasKey "limit" = true ∧
      (searchBody ["+tag"] ["-tag"] "" "" "7d" "" true none 10 2).hasKey "page" = true ∧
      (searchBody ["+tag"] ["-tag"] "" "" "7d" "" true none 10 2).get? "limit" =
        some (.str "10") ∧
      (searchBody ["+tag"] ["-tag"] "" "" "7d" "" true none 10 2).get? "page" =
        some (.str "2") ∧
      ParseInt "10" 64 = some 10 ∧ ParseInt "2" 64 = some 2 :=
  searchBody_limit_positive ["+tag"] ["-tag"] "" "" "7d" "" true none 10 2
    (by decide) (by decide) (by decide)

/-! ### Transport and event search -/

theorem unwrapLoop_append (envs : List Envelope) (pre zs : List Event)
    (h : envs.length ≤ zs.length) :
    unwrapLoop pre.length (pre ++ zs) envs =
      pre ++ envs.map Envelope.Event ++ zs.drop envs.length := by
  induction envs generalizing pre zs with
  | nil => simp [unwrapLoop]
  | cons ev rest ih =>
    cases zs with
    | nil => simp at h
    | cons z zs =>
      have hlen : rest.length ≤ zs.length := by simpa using h
      have hset : (pre ++ z :: zs).set pre.length ev.Event = (pre ++ [ev.Event]) ++ zs := by
        rw [List.set_append_right _ _ (Nat.le_refl _)]
        simp
      have hl : (pre ++ [ev.Event]).length = pre.length + 1 := by simp
      rw [unwrapLoop, hset, ← hl, ih (pre ++ [ev.Event]) zs hlen]
      simp

theorem unwrapLoop_replicate (envs : List Envelope) :
    unwrapLoop 0 (List.replicate envs.length Event.zero) envs = envs.map Envelope.Event := by
  have h := unwrapLoop_append envs [] (List.replicate envs.length Event.zero) (by simp)
  simpa using h

theorem httpPost_some {σ τ : Type} (std : Std) (c : Client) (path : String)
    (marshal : σ → JSON) (src : σ) (decode : τ → JSON → Option τ) (tgt : τ) :
    httpPost std c path (fun s => .ok (marshal s)) (some src) decode tgt =
      match postRequest std c path (some (marshal src)) with
      | .error err => .error err
      | .ok req =>
        match httpDo c req with
        | .error err => .error err
        | .ok b => Unmarshal decode b tgt := rfl

theorem SearchEvents_of_httpDo (std : Std) (c : Client) (tags notTags : List String)
    (from_ to_ last eventid : String) (metadata : Bool) (timestamp : Option Int)
    (limit page : Int) (req : Request) (r : Except Error Bytes)
    (hreq : postRequest std c "/events/restSearch/download/"
      (some (searchBody tags notTags from_ to_ last eventid metadata timestamp limit page)) = .ok req)
    (hdo : httpDo c req = r) :
    SearchEvents std c tags notTags from_ to_ last eventid metadata timestamp limit page =
      match r with
      | .error err => { events := none, err := some err }
      | .ok b =>
        match Unmarshal (decodeSearchTgt std) b { Response := Slice.nil } with
        | .error err => { events := none, err := some err }
        | .ok tgt => { events := some (tgt.Response.elems.map Envelope.Event), err := none } := by
  unfold SearchEvents
  simp only [httpPost_some]
  unfold searchBody at hreq
  rw [hreq]
  simp only [hdo]
  cases r with
  | error e => rfl
  | ok b =>
    simp only []
    cases hU : Unmarshal (decodeSearchTgt std) b { Response := Slice.nil } with
    | error e => rfl
    | ok tgt => simp only [unwrapLoop_replicate]

/-- When the exchange succeeds and the response decodes to `tgt`, the result is
the event of each envelope of `tgt.Response`, in order, and no error. -/
theorem SearchEvents_of_tgt (std : Std) (c : Client) (tags notTags : List String)
    (from_ to_ last eventid : String) (metadata : Bool) (timestamp : Option Int)
    (limit page : Int) (tgt : SearchTgt)
    (h : httpPost std c "/events/restSearch/download/" (fun s => .ok (marshalSearchSrc s))
      (some (searchSrc tags notTags from_ to_ last eventid metadata timestamp limit page))
      (decodeSearchTgt std) { Response := Slice.nil } = .ok tgt) :
    SearchEvents std c tags notTags from_ to_ last eventid metadata timestamp limit page =
      { events := some (tgt.Response.elems.map Envelope.Event), err := none } := by
  unfold SearchEvents
  simp only [h, unwrapLoop_replicate]

/-- C7: for a response returned by the injected client, `httpDo` fails with a
status error exactly when the status code is below 200 or above 299. The error
then carries that code, its text is `http status ` followed by the code in
decimal, the outcome does not depend on the body (which is neither read nor
decoded), and `SearchEvents`, when this was its request, returns that error
and a nil slice. -/
theorem httpDo_status (c : Client) (req : Request) (resp : Response)
    (std : Std) (tags notTags : List String) (from_ to_ last eventid : String)
    (metadata : Bool) (timestamp : Option Int) (limit page : Int)
    (h : c.hc req = .ok resp) :
    ((∃ code, httpDo c req = .error (.status code)) ↔
        (resp.StatusCode < 200 ∨ resp.StatusCode > 299)) ∧
      ((resp.StatusCode < 200 ∨ resp.StatusCode > 299) →
        httpDo c req = .error (.status resp.StatusCode) ∧
        statusMessage resp.StatusCode = "http status " ++ FormatInt resp.StatusCode ∧
        (postRequest std c "/events/restSearch/download/"
            (some (searchBody tags notTags from_ to_ last eventid metadata timestamp limit page))
              = .ok req →
          SearchEvents std c tags notTags from_ to_ last eventid metadata timestamp limit page =
            { events := none, err := some (.status resp.StatusCode) })) := by
  have hout : (resp.StatusCode < 200 ∨ resp.StatusCode > 299) →
      httpDo c req = .error (.status resp.StatusCode) := by
    intro hs
    unfold httpDo
    rw [h]
    simp only [if_pos hs]
  refine ⟨⟨?_, fun hs => ⟨resp.StatusCode, hout hs⟩⟩, fun hs => ⟨hout hs, rfl, ?_⟩⟩
  · rintro ⟨code, hc⟩
    by_contra hs
    unfold httpDo at hc
    rw [h] at hc
    simp only [if_neg hs] at hc
    cases hb : resp.Body with
    | error msg => rw [hb] at hc; simp at hc
    | ok buf => rw [hb] at hc; simp at hc
  · intro hreq
    rw [SearchEvents_of_httpDo std c tags notTags from_ to_ last eventid metadata timestamp
      limit page req _ hreq (hout hs)]

/-- Witness of `httpDo_status`: a 401 answer whose body cannot be read. -/
theorem httpDo_status_witness :
    ((∃ code, httpDo (fixedClient 401 (.error "body not read")) testRequest =
        .error (.status code)) ↔ ((401 : Int) < 200 ∨ (401 : Int) > 299)) ∧
      httpDo (fixedClient 401 (.error "body not read")) testRequest = .error (.status 401) ∧
      statusMessage 401 = "http status 401" ∧
      SearchEvents plainStd (fixedClient 401 (.error "body not read")) [] [] "" "" "" "" false
        none 0 0 = { events := none, err := some (.status 401) } :=
  have t := httpDo_status (fixedClient 401 (.error "body not read")) testRequest
    { StatusCode := 401, Body := .error "body not read" } plainStd [] [] "" "" "" "" false
    none 0 0 rfl
  ⟨t.1, (t.2 (by decide)).1, (t.2 (by decide)).2.1, (t.2 (by decide)).2.2 rfl⟩

/-! ### Decoding of events -/

theorem decodeMembers_none {τ : Type} (step : τ → String → JSON → Option τ)
    (members : List (String × JSON)) (k : String) (v : JSON)
    (hmem : (k, v) ∈ members) (hstep : ∀ cur, step cur k v = none) (cur : τ) :
    decodeMembers step cur members = none := by
  induction members generalizing cur with
  | nil => simp at hmem
  | cons m rest ih =>
    obtain ⟨k1, v1⟩ := m
    unfold decodeMembers
    rcases List.mem_cons.mp hmem with heq | hin
    · cases heq
      rw [hstep cur]
    · cases hs : step cur k1 v1 with
      | none => rfl
      | some next => exact ih hin next

theorem decodeElems_none {τ : Type} (dec : τ → JSON → Option τ) (zero : τ)
    (items : List JSON) (v : JSON) (hmem : v ∈ items) (hdec : ∀ cur, dec cur v = none)
    (backing : List τ) :
    decodeElems dec zero backing items = none := by
  induction items generalizing backing with
  | nil => simp at hmem
  | cons w rest ih =>
    unfold decodeElems
    rcases List.mem_cons.mp hmem with heq | hin
    · subst heq
      rw [hdec]
    · cases hs : dec (backing.headD zero) w with
      | none => rfl
      | some x => simp only [ih hin backing.tail]

theorem decodeSlice_none {τ : Type} (dec : τ → JSON → Option τ) (zero : τ)
    (items : List JSON) (v : JSON) (hmem : v ∈ items) (hdec : ∀ cur, dec cur v = none)
    (cur : Slice τ) :
    decodeSlice dec zero cur (.arr items) = none := by
  cases items with
  | nil => simp at hmem
  | cons w rest =>
    show Option.map _ (decodeElems dec zero (cur.elems ++ cur.spare) (w :: rest)) = none
    rw [decodeElems_none dec zero (w :: rest) v hmem hdec]
    rfl

theorem parseDigits_all (l : List Char) (n m : Nat) (h : parseDigits n l = some m) :
    l.all (fun d => (digitVal d).isSome) = true := by
  induction l generalizing n with
  | nil => rfl
  | cons c rest ih =>
    unfold parseDigits at h
    cases hc : digitVal c with
    | none => rw [hc] at h; simp at h
    | some d =>
      rw [hc] at h
      simp only [List.all_cons, hc, Option.isSome_some, Bool.true_and]
      exact ih _ h

theorem ParseUint_all (l : List Char) (m : Nat) (h : ParseUint l = some m) :
    l ≠ [] ∧ l.all (fun d => (digitVal d).isSome) = true := by
  cases l with
  | nil => simp [ParseUint] at h
  | cons c rest =>
    refine ⟨by simp, ?_⟩
    cases hp : parseDigits 0 (c :: rest) with
    | none => simp [ParseUint, hp] at h
    | some n => exact parseDigits_all _ _ _ hp

theorem digitVal_of_isSome (c : Char) (h : (digitVal c).isSome = true) :
    digitVal c = some (c.toNat - 48) := by
  unfold digitVal at h ⊢
  by_cases hc : '0' ≤ c ∧ c ≤ '9'
  · rw [if_pos hc]
  · rw [if_neg hc] at h; simp at h

theorem parseDigits_of_all (l : List Char) (n : Nat)
    (h : l.all (fun d => (digitVal d).isSome) = true) :
    parseDigits n l = some (l.foldl (fun n d => n * 10 + (d.toNat - 48)) n) := by
  induction l generalizing n with
  | nil => rfl
  | cons c rest ih =>
    simp only [List.all_cons, Bool.and_eq_true] at h
    unfold parseDigits
    rw [digitVal_of_isSome c h.1]
    exact ih _ h.2

theorem ParseUint_of_all (l : List Char) (hne : l ≠ [])
    (h : l.all (fun d => (digitVal d).isSome) = true) :
    ParseUint l = if digitsValue l < 2 ^ 64 then some (digitsValue l) else none := by
  cases l with
  | nil => exact absurd rfl hne
  | cons c rest =>
    unfold ParseUint
    simp only [parseDigits_of_all (c :: rest) 0 h]
    rfl

/-- A text that is not an optionally signed decimal integer is rejected by `ParseInt`. -/
theorem ParseInt_none (item : String) (bitSize : Nat) (hdec : isDecimalInteger item = false) :
    ParseInt item bitSize = none := by
  unfold isDecimalInteger at hdec
  unfold ParseInt
  cases hd : item.data with
  | nil => rfl
  | cons c rest =>
    rw [hd] at hdec
    simp only at hdec ⊢
    by_cases hs : c = '+' ∨ c = '-'
    · rw [if_pos hs] at hdec ⊢
      cases hu : ParseUint rest with
      | none => rfl
      | some un =>
        exfalso
        obtain ⟨hne, hall⟩ := ParseUint_all rest un hu
        rw [hall] at hdec
        cases rest with
        | nil => exact hne rfl
        | cons _ _ => simp at hdec
    · rw [if_neg hs] at hdec ⊢
      cases hu : ParseUint (c :: rest) with
      | none => rfl
      | some un =>
        exfalso
        obtain ⟨-, hall⟩ := ParseUint_all (c :: rest) un hu
        rw [hall] at hdec
        exact Bool.noConfusion hdec

/-- An optionally signed decimal integer within the 64-bit range is parsed by
`ParseInt` to the integer it denotes; outside the range it is rejected. -/
theorem ParseInt_decimal (item : String) (hdec : isDecimalInteger item = true) :
    ParseInt item 64 =
      if -(2 : Int) ^ 63 ≤ decimalValue item ∧ decimalValue item < (2 : Int) ^ 63
      then some (decimalValue item) else none := by
  have p63 : (2 : Int) ^ 63 = 9223372036854775808 := by norm_num
  have n63 : 2 ^ (64 - 1) = 9223372036854775808 := by norm_num
  have n64 : 2 ^ 64 = 18446744073709551616 := by norm_num
  rw [p63]
  unfold isDecimalInteger at hdec
  unfold ParseInt decimalValue
  rw [n63]
  cases hd : item.data with
  | nil => rw [hd] at hdec; simp at hdec
  | cons c rest =>
    rw [hd] at hdec
    simp only at hdec ⊢
    by_cases hm : c = '-'
    · have hs : c = '+' ∨ c = '-' := Or.inr hm
      rw [if_pos hs] at hdec ⊢
      simp only [Bool.and_eq_true, Bool.not_eq_true', List.isEmpty_eq_false] at hdec
      have hne : rest ≠ [] := by
        intro h; rw [h] at hdec; simp at hdec
      rw [ParseUint_of_all rest hne hdec.2, n64]
      simp only [hm, if_true, decide_True]
      by_cases h64 : digitsValue rest < 18446744073709551616
      · rw [if_pos h64]
        simp only
        by_cases hr : digitsValue rest ≤ 9223372036854775808
        · rw [if_pos hr, if_pos]
          omega
        · rw [if_neg hr, if_neg]
          omega
      · rw [if_neg h64]
        simp only
        rw [if_neg]
        omega
    · by_cases hp : c = '+'
      · have hs : c = '+' ∨ c = '-' := Or.inl hp
        rw [if_pos hs] at hdec ⊢
        simp only [Bool.and_eq_true, Bool.not_eq_true', List.isEmpty_eq_false] at hdec
        have hne : rest ≠ [] := by
          intro h; rw [h] at hdec; simp at hdec
        rw [ParseUint_of_all rest hne hdec.2, n64]
        have hpm : ¬ (('+' : Char) = '-') := by decide
        simp only [hm, hp, hpm, if_false, if_true, decide_False]
        by_cases h64 : digitsValue rest < 18446744073709551616
        · rw [if_pos h64]
          simp only
          by_cases hr : digitsValue rest < 9223372036854775808
          · rw [if_pos hr, if_pos]
            omega
          · rw [if_neg hr, if_neg]
            omega
        · rw [if_neg h64]
          simp only
          rw [if_neg]
          omega
      · have hs : ¬ (c = '+' ∨ c = '-') := by
          rintro (h | h)
          · exact hp h
          · exact hm h
        rw [if_neg hs] at hdec ⊢
        rw [ParseUint_of_all (c :: rest) (by simp) hdec, n64]
        simp only [hm, hp, if_false, decide_False]
        by_cases h64 : digitsValue (c :: rest) < 18446744073709551616
        · rw [if_pos h64]
          simp only
          by_cases hr : digitsValue (c :: rest) < 9223372036854775808
          · rw [if_pos hr, if_pos]
            omega
          · rw [if_neg hr, if_neg]
            omega
        · rw [if_neg h64]
          simp only
          rw [if_neg]
          omega

/-- A quoted value that is neither the text `null` nor an optionally signed
decimal integer is rejected. -/
theorem literalStoreInt_none (bitSize : Nat) (cur : Int) (item : String)
    (hnull : item ≠ "null") (hdec : isDecimalInteger item = false) :
    literalStoreInt bitSize cur item = none := by
  unfold literalStoreInt
  rw [ParseInt_none item bitSize hdec]
  simp only [if_neg hnull]

/-- A quoted decimal integer within the 64-bit range is stored as the integer it denotes. -/
theorem literalStoreInt_decimal (cur : Int) (item : String)
    (hdec : isDecimalInteger item = true)
    (hlo : -(2 : Int) ^ 63 ≤ decimalValue item) (hhi : decimalValue item < (2 : Int) ^ 63) :
    literalStoreInt 64 cur item = some (decimalValue item) := by
  unfold literalStoreInt
  rw [ParseInt_decimal item hdec, if_pos ⟨hlo, hhi⟩]

theorem findField_id (std : Std) : findField std eventFields "id" = some "id" := by
  simp [findField, eventFields]

theorem findField_timestamp (std : Std) :
    findField std eventFields "timestamp" = some "timestamp" := by
  simp [findField, eventFields]

theorem eventStep_id (std : Std) (cur : Event) (item : String) :
    eventStep std cur "id" (.str item) =
      (literalStoreInt 64 cur.ID item).map (fun x => { cur with ID := x }) := by
  unfold eventStep
  rw [findField_id]
  rfl

theorem eventStep_timestamp (std : Std) (cur : Event) (t : String) :
    eventStep std cur "timestamp" (.str t) = some { cur with Timestamp := t } := by
  unfold eventStep
  rw [findField_timestamp]
  rfl

theorem eventStep_id_none (std : Std) (cur : Event) (item : String)
    (hnull : item ≠ "null") (hdec : isDecimalInteger item = false) :
    eventStep std cur "id" (.str item) = none := by
  rw [eventStep_id, literalStoreInt_none 64 cur.ID item hnull hdec]
  rfl

theorem eventStep_id_decimal (std : Std) (cur : Event) (item : String)
    (hdec : isDecimalInteger item = true)
    (hlo : -(2 : Int) ^ 63 ≤ decimalValue item) (hhi : decimalValue item < (2 : Int) ^ 63) :
    eventStep std cur "id" (.str item) = some { cur with ID := decimalValue item } := by
  rw [eventStep_id, literalStoreInt_decimal cur.ID item hdec hlo hhi]
  rfl

/-- An event object with a bad `id` member does not decode. -/
theorem decodeEvent_id_none (std : Std) (cur : Event) (members : List (String × JSON))
    (item : String) (hmem : ("id", JSON.str item) ∈ members)
    (hnull : item ≠ "null") (hdec : isDecimalInteger item = false) :
    decodeEvent std cur (.obj members) = none :=
  decodeMembers_none (eventStep std) members "id" (.str item) hmem
    (fun cur => eventStep_id_none std cur item hnull hdec) cur

theorem envelopeStep_Event (std : Std) (cur : Envelope) (v : JSON) :
    envelopeStep std cur "Event" v =
      (decodeEvent std cur.Event v).map (fun x => { cur with Event := x }) := by
  have hf : findField std ["Event"] "Event" = some "Event" := by simp [findField]
  unfold envelopeStep
  rw [hf]
  rfl

theorem searchTgtStep_response (std : Std) (cur : SearchTgt) (v : JSON) :
    searchTgtStep std cur "response" v =
      (decodeSlice (decodeStruct (envelopeStep std)) Envelope.zero cur.Response v).map
        (fun x => { cur with Response := x }) := by
  have hf : findField std ["response"] "response" = some "response" := by simp [findField]
  unfold searchTgtStep
  rw [hf]
  rfl

theorem decodeSearchTgt_id_none (std : Std) (cur : SearchTgt) (top : List (String × JSON))
    (envs : List JSON) (env members : List (String × JSON)) (item : String)
    (htop : ("response", JSON.arr envs) ∈ top) (henv : JSON.obj env ∈ envs)
    (hev : ("Event", JSON.obj members) ∈ env) (hmem : ("id", JSON.str item) ∈ members)
    (hnull : item ≠ "null") (hdec : isDecimalInteger item = false) :
    decodeSearchTgt std cur (.obj top) = none := by
  have h1 : ∀ e : Envelope, envelopeStep std e "Event" (.obj members) = none := by
    intro e
    rw [envelopeStep_Event, decodeEvent_id_none std e.Event members item hmem hnull hdec]
    rfl
  have h2 : ∀ e : Envelope, decodeStruct (envelopeStep std) e (.obj env) = none :=
    fun e => decodeMembers_none (envelopeStep std) env "Event" (.obj members) hev h1 e
  have h3 : ∀ t : SearchTgt, searchTgtStep std t "response" (.arr envs) = none := by
    intro t
    rw [searchTgtStep_response, decodeSlice_none (decodeStruct (envelopeStep std)) Envelope.zero
      envs (.obj env) henv h2 t.Response]
    rfl
  exact decodeMembers_none (searchTgtStep std) top "response" (.arr envs) htop h3 cur

/-- The envelopes of a response decode to the events their contents decode to. -/
theorem decodeElems_wrapEvent (std : Std) (evs : List JSON) (Es : List Event)
    (hdec : List.Forall₂ (fun e E => decodeEvent std Event.zero e = some E) evs Es) :
    decodeElems (decodeStruct (envelopeStep std)) Envelope.zero [] (evs.map wrapEvent) =
      some (Es.map Envelope.mk) := by
  induction hdec with
  | nil => rfl
  | @cons e E evs Es h _ ih =>
    have hw : decodeStruct (envelopeStep std) Envelope.zero (wrapEvent e) =
        some (Envelope.mk E) := by
      show decodeMembers (envelopeStep std) Envelope.zero [("Event", e)] = _
      unfold decodeMembers
      rw [envelopeStep_Event]
      have hz : Envelope.zero.Event = Event.zero := rfl
      rw [hz, h]
      rfl
    rw [List.map_cons, decodeElems]
    simp only [List.headD_nil, List.tail_nil, hw, ih, List.map_cons]

theorem decodeSearchTgt_searchResponse (std : Std) (evs : List JSON) (Es : List Event)
    (hdec : List.Forall₂ (fun e E => decodeEvent std Event.zero e = some E) evs Es) :
    decodeSearchTgt std { Response := Slice.nil } (searchResponse evs) =
      some { Response := Slice.of (Es.map Envelope.mk) } := by
  show decodeMembers (searchTgtStep std) { Response := Slice.nil }
    [("response", .arr (evs.map wrapEvent))] = _
  unfold decodeMembers
  rw [searchTgtStep_response]
  cases hdec with
  | nil => rfl
  | @cons e E evs Es h hrest =>
    have hall := decodeElems_wrapEvent std (e :: evs) (E :: Es) (List.Forall₂.cons h hrest)
    rw [List.map_cons] at hall ⊢
    simp only [decodeSlice, Slice.nil, List.nil_append, hall, Option.map_some', List.drop_nil,
      decodeMembers, Slice.of]

/-- A successful exchange whose response wraps events that decode returns those events. -/
theorem SearchEvents_of_events (std : Std) (c : Client) (tags notTags : List String)
    (from_ to_ last eventid : String) (metadata : Bool) (timestamp : Option Int)
    (limit page : Int) (req : Request) (evs : List JSON) (Es : List Event)
    (hreq : postRequest std c "/events/restSearch/download/"
      (some (searchBody tags notTags from_ to_ last eventid metadata timestamp limit page)) = .ok req)
    (hdo : httpDo c req = .ok (some (searchResponse evs)))
    (hdec : List.Forall₂ (fun e E => decodeEvent std Event.zero e = some E) evs Es) :
    SearchEvents std c tags notTags from_ to_ last eventid metadata timestamp limit page =
      { events := some Es, err := none } := by
  rw [SearchEvents_of_httpDo std c tags notTags from_ to_ last eventid metadata timestamp
    limit page req _ hreq hdo]
  simp only [Unmarshal, decodeSearchTgt_searchResponse std evs Es hdec, Slice.of, List.map_map]
  have : (Envelope.Event ∘ Envelope.mk) = id := rfl
  rw [this, List.map_id]

theorem getElem?_bind_decode (std : Std) (evs : List JSON) (Es : List Event)
    (hdec : List.Forall₂ (fun e E => decodeEvent std Event.zero e = some E) evs Es) (i : Nat) :
    (evs[i]?).bind (decodeEvent std Event.zero) = Es[i]? := by
  induction hdec generalizing i with
  | nil => rfl
  | cons h _ ih =>
    cases i with
    | zero => simpa using h
    | succ i => simpa using ih i

/-- C6: when the exchange succeeds with the response `{"response": [{"Event":
e_1}, ..., {"Event": e_n}]}` and every `e_i` decodes, `SearchEvents` returns no
error and a non-nil slice of exactly `n` events, the `i`-th being the event
decoded from the `i`-th envelope, in the same order (for `n = 0` the empty
non-nil slice). -/
theorem SearchEvents_unwraps (std : Std) (c : Client) (tags notTags : List String)
    (from_ to_ last eventid : String) (metadata : Bool) (timestamp : Option Int)
    (limit page : Int) (req : Request) (evs : List JSON) (Es : List Event)
    (hreq : postRequest std c "/events/restSearch/download/"
      (some (searchBody tags notTags from_ to_ last eventid metadata timestamp limit page)) = .ok req)
    (hdo : httpDo c req = .ok (some (searchResponse evs)))
    (hdec : List.Forall₂ (fun e E => decodeEvent std Event.zero e = some E) evs Es) :
    ∃ events,
      SearchEvents std c tags notTags from_ to_ last eventid metadata timestamp limit page =
        { events := some events, err := none } ∧
      events = Es ∧
      events.length = evs.length ∧
      ∀ i : Nat, events[i]? = (evs[i]?).bind (decodeEvent std Event.zero) :=
  ⟨Es,
    SearchEvents_of_events std c tags notTags from_ to_ last eventid metadata timestamp limit
      page req evs Es hreq hdo hdec,
    rfl, hdec.length_eq.symm, fun i => (getElem?_bind_decode std evs Es hdec i).symm⟩

/-- Witness of `SearchEvents_unwraps`: a filtered, paged search answered with
two different events returns the two, in the order of the response. -/
theorem SearchEvents_unwraps_witness :
    ∃ events,
      SearchEvents plainStd
          (fixedClient 200 (.ok (some (searchResponse [testEventJSON, otherEventJSON]))))
          ["+tag"] ["-tag"] "2020-01-01" "" "7d" "" true (some 1579771919) 10 2 =
        { events := some events, err := none } ∧
      events = [testEvent, otherEvent] ∧
      events.length = [testEventJSON, otherEventJSON].length ∧
      ∀ i : Nat, events[i]? =
        ([testEventJSON, otherEventJSON][i]?).bind (decodeEvent plainStd Event.zero) :=
  SearchEvents_unwraps plainStd
    (fixedClient 200 (.ok (some (searchResponse [testEventJSON, otherEventJSON]))))
    ["+tag"] ["-tag"] "2020-01-01" "" "7d" "" true (some 1579771919) 10 2
    (fixedRequest (searchBody ["+tag"] ["-tag"] "2020-01-01" "" "7d" "" true
      (some 1579771919) 10 2))
    [testEventJSON, otherEventJSON] [testEvent, otherEvent] rfl rfl
    (List.Forall₂.cons (by decide) (List.Forall₂.cons (by decide) List.Forall₂.nil))

/-- A response without envelopes gives the empty, non-nil slice and no error. -/
theorem SearchEvents_no_envelopes :
    SearchEvents plainStd (fixedClient 200 (.ok (some (searchResponse []))))
        [] [] "" "" "" "" false none 0 0 = { events := some [], err := none } := by
  decide

/-- C9, counterexample: `abc` is not a decimal integer, yet an event whose
`timestamp` is the string `abc` decodes, the text being kept as it is, and
`SearchEvents` returns that event and no error. -/
theorem decode_timestamp_counterexample :
    isDecimalInteger "abc" = false ∧
      decodeEvent plainStd Event.zero
          (.obj [("id", .str "1488"), ("timestamp", .str "abc")]) =
        some { Event.zero with ID := 1488, Timestamp := "abc" } ∧
      SearchEvents plainStd
          (fixedClient 200 (.ok (some (searchResponse
            [.obj [("id", .str "1488"), ("timestamp", .str "abc")]]))))
          [] [] "" "" "" "" false none 0 0 =
        { events := some [{ Event.zero with ID := 1488, Timestamp := "abc" }], err := none } := by
  decide

/-- C9, amended: `id` is parsed as an integer and `timestamp` is kept as a
string. When the response holds an event whose `id` is a JSON string that is
neither an optionally signed decimal integer nor the text `null`, decoding of
that event fails and `SearchEvents` returns the decode error and a nil slice.
An `id` that is an optionally signed decimal integer within the 64-bit range
sets the id of the event to the integer it denotes, and a `timestamp` that is
any JSON string `t` sets the timestamp to `t` unchanged, whatever the event
held before; so the object with just these two members decodes to the event
with that id and that timestamp. -/
theorem decodeEvent_id_parsed (std : Std) (c : Client) (tags notTags : List String)
    (from_ to_ last eventid : String) (metadata : Bool) (timestamp : Option Int)
    (limit page : Int) (req : Request) (top : List (String × JSON)) (envs : List JSON)
    (env members : List (String × JSON)) (item : String)
    (hreq : postRequest std c "/events/restSearch/download/"
      (some (searchBody tags notTags from_ to_ last eventid metadata timestamp limit page)) = .ok req)
    (hdo : httpDo c req = .ok (some (.obj top)))
    (htop : ("response", JSON.arr envs) ∈ top) (henv : JSON.obj env ∈ envs)
    (hev : ("Event", JSON.obj members) ∈ env) (hmem : ("id", JSON.str item) ∈ members)
    (hnull : item ≠ "null") (hdec : isDecimalInteger item = false) :
    (∀ cur, decodeEvent std cur (.obj members) = none) ∧
      SearchEvents std c tags notTags from_ to_ last eventid metadata timestamp limit page =
        { events := none, err := some .decode } ∧
      (∀ (s t : String), isDecimalInteger s = true →
        -(2 : Int) ^ 63 ≤ decimalValue s → decimalValue s < (2 : Int) ^ 63 →
        (∀ cur : Event, eventStep std cur "id" (.str s) = some { cur with ID := decimalValue s }) ∧
        (∀ cur : Event, eventStep std cur "timestamp" (.str t) =
          some { cur with Timestamp := t }) ∧
        decodeEvent std Event.zero (.obj [("id", .str s), ("timestamp", .str t)]) =
          some { Event.zero with ID := decimalValue s, Timestamp := t }) := by
  refine ⟨fun cur => decodeEvent_id_none std cur members item hmem hnull hdec, ?_, ?_⟩
  · rw [SearchEvents_of_httpDo std c tags notTags from_ to_ last eventid metadata timestamp
      limit page req _ hreq hdo]
    simp only [Unmarshal, decodeSearchTgt_id_none std { Response := Slice.nil } top envs env
      members item htop henv hev hmem hnull hdec]
  · intro s t hs hlo hhi
    refine ⟨fun cur => eventStep_id_decimal std cur s hs hlo hhi,
      fun cur => eventStep_timestamp std cur t, ?_⟩
    simp only [decodeEvent, decodeStruct, decodeMembers, eventStep_id_decimal std _ s hs hlo hhi,
      eventStep_timestamp]

/-- Witness of `decodeEvent_id_parsed`: the event of the response has the id
`abc`; the ids `1488`, `+5` and `-12` are read as the integers 1488, 5 and -12. -/
theorem decodeEvent_id_parsed_witness :
    (∀ cur, decodeEvent plainStd cur
        (.obj [("id", .str "abc"), ("timestamp", .str "1579771919")]) = none) ∧
      SearchEvents plainStd
          (fixedClient 200 (.ok (some (searchResponse
            [.obj [("id", .str "abc"), ("timestamp", .str "1579771919")]]))))
          ["+tag"] [] "" "" "7d" "" false none 10 2 =
        { events := none, err := some .decode } ∧
      decodeEvent plainStd Event.zero
          (.obj [("id", .str "1488"), ("timestamp", .str "1579771919")]) =
        some { Event.zero with ID := 1488, Timestamp := "1579771919" } ∧
      decodeEvent plainStd Event.zero (.obj [("id", .str "+5"), ("timestamp", .str "abc")]) =
        some { Event.zero with ID := 5, Timestamp := "abc" } ∧
      decodeEvent plainStd Event.zero (.obj [("id", .str "-12"), ("timestamp", .str "")]) =
        some { Event.zero with ID := -12, Timestamp := "" } :=
  have t := decodeEvent_id_parsed plainStd
    (fixedClient 200 (.ok (some (searchResponse
      [.obj [("id", .str "abc"), ("timestamp", .str "1579771919")]]))))
    ["+tag"] [] "" "" "7d" "" false none 10 2
    (fixedRequest (searchBody ["+tag"] [] "" "" "7d" "" false none 10 2))
    [("response", .arr [wrapEvent (.obj [("id", .str "abc"), ("timestamp", .str "1579771919")])])]
    [wrapEvent (.obj [("id", .str "abc"), ("timestamp", .str "1579771919")])]
    [("Event", .obj [("id", .str "abc"), ("timestamp", .str "1579771919")])]
    [("id", .str "abc"), ("timestamp", .str "1579771919")]
    "abc" rfl rfl
    (List.mem_cons_self _ _) (List.mem_cons_self _ _) (List.mem_cons_self _ _)
    (List.mem_cons_self _ _) (by decide) (by decide)
  ⟨t.1, t.2.1,
    (t.2.2 "1488" "1579771919" (by decide) (by decide) (by decide)).2.2,
    (t.2.2 "+5" "abc" (by decide) (by decide) (by decide)).2.2,
    (t.2.2 "-12" "" (by decide) (by decide) (by decide)).2.2⟩

end Misp
